import Mathlib

/-!
Verification of the braille-haptic-tutor reading-cursor engine.

The definitions below are a shallow embedding of the TypeScript source
(`src/App.tsx` first revision, `src/services/geminiService.ts` first
revision, `src/components/BrailleCell.tsx` first revision).  Geometry is
modelled over `ℚ` (JS numbers on the relevant inputs), the speech engine
as a trace of events, and the browser refs as explicit state records.
-/

/-! ## Focus resolution (App.tsx `handleScroll`, lines 156-197) -/

/-- Geometry of one rendered letter cell, as read from the DOM in
`handleScroll`: `offsetLeft` and `offsetWidth` relative to the scroll
container.  The list of cells is in DOM order, which is render order, so
the position of a cell in the list is the value of its
`data-char-index` attribute. -/
structure CellGeom where
  offsetLeft : ℚ
  offsetWidth : ℚ
deriving DecidableEq

/-- `cell.offsetLeft + cell.offsetWidth / 2` from the loop body. -/
def cellCenter (c : CellGeom) : ℚ := c.offsetLeft + c.offsetWidth / 2

/-- `Math.abs(containerCenter - cellCenter)` from the loop body. -/
def distTo (center : ℚ) (c : CellGeom) : ℚ := |center - cellCenter c|

/-- The `for (const cell of cells)` loop of `handleScroll`: running state
is `(closestCell, minDistance)`, `none` standing for the initial
`closestCell = null / minDistance = Infinity`; a cell strictly closer
than the current minimum replaces it (`distance < minDistance`). -/
def closestCellScan (center : ℚ) : List CellGeom → Option (Nat × ℚ) → Nat → Option (Nat × ℚ)
  | [], acc, _ => acc
  | c :: rest, acc, i =>
      let d := distTo center c
      match acc with
      | none => closestCellScan center rest (some (i, d)) (i + 1)
      | some (bi, bd) =>
          if d < bd then closestCellScan center rest (some (i, d)) (i + 1)
          else closestCellScan center rest (some (bi, bd)) (i + 1)

/-- The focus decision of `handleScroll`: the index of the closest cell when
`closestCell && minDistance < 100`, otherwise no focus. -/
def handleScrollFocus (center : ℚ) (cells : List CellGeom) : Option Nat :=
  match closestCellScan center cells none 0 with
  | some (i, d) => if d < 100 then some i else none
  | none => none

/-! Proof-side characterisation of the scan. -/

/-- Structural right-recursion computing the earliest strict argmin of
the distances, with absolute indices starting at `i`. -/
def bestOf (center : ℚ) (i : Nat) : List CellGeom → Option (Nat × ℚ)
  | [] => none
  | c :: rest =>
      let d := distTo center c
      match bestOf center (i + 1) rest with
      | none => some (i, d)
      | some (j, bd) => if bd < d then some (j, bd) else some (i, d)

/-- Left-biased minimum on optional `(index, distance)` pairs. -/
def mergeBest : Option (Nat × ℚ) → Option (Nat × ℚ) → Option (Nat × ℚ)
  | none, r => r
  | some p, none => some p
  | some (bi, bd), some (ri, rd) => if rd < bd then some (ri, rd) else some (bi, bd)

theorem mergeBest_none (a : Option (Nat × ℚ)) : mergeBest a none = a := by
  cases a with
  | none => rfl
  | some p => cases p; rfl

theorem mergeBest_assoc (a b c : Option (Nat × ℚ)) :
    mergeBest (mergeBest a b) c = mergeBest a (mergeBest b c) := by
  cases a with
  | none => rfl
  | some pa =>
    cases b with
    | none => cases c <;> rfl
    | some pb =>
      cases c with
      | none => rw [mergeBest_none, mergeBest_none]
      | some pc =>
        obtain ⟨ai, ad⟩ := pa
        obtain ⟨bi, bd⟩ := pb
        obtain ⟨ci, cd⟩ := pc
        by_cases h1 : bd < ad <;> by_cases h2 : cd < bd
        · simp [mergeBest, h1, h2, lt_trans h2 h1]
        · simp [mergeBest, h1, h2]
        · simp [mergeBest, h1, h2]
        · have h3 : ¬ cd < ad := by push_neg at h1 h2 ⊢; linarith
          simp [mergeBest, h1, h2, h3]

theorem closestCellScan_eq_mergeBest (center : ℚ) (l : List CellGeom) :
    ∀ (acc : Option (Nat × ℚ)) (i : Nat),
      closestCellScan center l acc i = mergeBest acc (bestOf center i l) := by
  induction l with
  | nil =>
    intro acc i
    rw [closestCellScan, bestOf, mergeBest_none]
  | cons c rest ih =>
    intro acc i
    have hstep : closestCellScan center (c :: rest) acc i =
        closestCellScan center rest (mergeBest acc (some (i, distTo center c))) (i + 1) := by
      cases acc with
      | none => rfl
      | some p =>
        obtain ⟨bi, bd⟩ := p
        by_cases h : distTo center c < bd <;>
          simp [closestCellScan, mergeBest, h]
    have hbest : bestOf center i (c :: rest) =
        mergeBest (some (i, distTo center c)) (bestOf center (i + 1) rest) := by
      rw [bestOf]
      cases bestOf center (i + 1) rest with
      | none => rfl
      | some p => obtain ⟨j, bd⟩ := p; rfl
    rw [hstep, ih, hbest, mergeBest_assoc]

theorem bestOf_spec (center : ℚ) (l : List CellGeom) : ∀ i : Nat,
    (bestOf center i l = none → l = []) ∧
    (∀ ri rd, bestOf center i l = some (ri, rd) →
      ∃ k, ∃ hk : k < l.length, ri = i + k ∧ rd = distTo center (l.get ⟨k, hk⟩) ∧
        (∀ m (hm : m < l.length), rd ≤ distTo center (l.get ⟨m, hm⟩)) ∧
        (∀ m (hm : m < l.length), m < k → rd < distTo center (l.get ⟨m, hm⟩))) := by
  induction l with
  | nil =>
    intro i
    refine ⟨fun _ => rfl, fun ri rd h => ?_⟩
    simp [bestOf] at h
  | cons c rest ih =>
    intro i
    constructor
    · intro h
      cases hb : bestOf center (i + 1) rest with
      | none => rw [bestOf, hb] at h; simp at h
      | some p =>
        obtain ⟨j, bd⟩ := p
        rw [bestOf, hb] at h
        simp only at h
        split_ifs at h
    · intro ri rd h
      cases hb : bestOf center (i + 1) rest with
      | none =>
        have hrest : rest = [] := ((ih (i + 1)).1) hb
        subst hrest
        rw [bestOf, hb] at h
        simp only [Option.some.injEq, Prod.mk.injEq] at h
        obtain ⟨hri, hrd⟩ := h
        refine ⟨0, by simp, by omega, by simp [hrd], ?_, ?_⟩
        · intro m hm
          have hm0 : m = 0 := by simpa using hm
          subst hm0
          simp [hrd]
        · intro m hm hmk
          omega
      | some p =>
        obtain ⟨j, bd⟩ := p
        rw [bestOf, hb] at h
        simp only at h
        obtain ⟨k1, hk1, hji, hbd, hmin, hstrict⟩ := ((ih (i + 1)).2) j bd hb
        by_cases hlt : bd < distTo center c
        · rw [if_pos hlt] at h
          simp only [Option.some.injEq, Prod.mk.injEq] at h
          obtain ⟨hri, hrd⟩ := h
          have hklen : k1 + 1 < (c :: rest).length := by
            simpa using Nat.succ_lt_succ hk1
          refine ⟨k1 + 1, hklen, by omega, ?_, ?_, ?_⟩
          · rw [← hrd]
            exact hbd
          · intro m hm
            match m with
            | 0 =>
              rw [← hrd]
              exact le_of_lt hlt
            | Nat.succ m1 =>
              rw [← hrd]
              exact hmin m1 (by simpa using Nat.lt_of_succ_lt_succ hm)
          · intro m hm hmk
            match m, hm, hmk with
            | 0, _, _ =>
              rw [← hrd]
              exact hlt
            | Nat.succ m1, hm, hmk =>
              rw [← hrd]
              exact hstrict m1 (by simpa using Nat.lt_of_succ_lt_succ hm) (by omega)
        · rw [if_neg hlt] at h
          simp only [Option.some.injEq, Prod.mk.injEq] at h
          obtain ⟨hri, hrd⟩ := h
          refine ⟨0, by simp, by omega, by simp [← hrd], ?_, ?_⟩
          · intro m hm
            match m with
            | 0 => simp [← hrd]
            | Nat.succ m1 =>
              have h1 : distTo center c ≤ bd := le_of_not_lt hlt
              have h2 := hmin m1 (by simpa using Nat.lt_of_succ_lt_succ hm)
              rw [← hrd]
              exact le_trans h1 h2
          · intro m hm hmk
            omega

theorem bestOf_isSome (center : ℚ) (l : List CellGeom) (i : Nat) (hne : l ≠ []) :
    ∃ ri rd, bestOf center i l = some (ri, rd) := by
  cases hb : bestOf center i l with
  | none => exact absurd (((bestOf_spec center l i).1) hb) hne
  | some p =>
    obtain ⟨a, b⟩ := p
    exact ⟨a, b, rfl⟩

/-- `handleScrollFocus` in terms of the earliest argmin. -/
theorem handleScrollFocus_eq (center : ℚ) (cells : List CellGeom) :
    handleScrollFocus center cells =
      match bestOf center 0 cells with
      | some (i, d) => if d < 100 then some i else none
      | none => none := by
  unfold handleScrollFocus
  rw [closestCellScan_eq_mergeBest]
  rfl

/-- C1: for every viewport center and list of rendered letter cells,
`handleScroll` focuses exactly the cell whose center minimises the
absolute distance to the viewport center, preferring the lower index on
ties, and resolves no focus exactly when no cell center is strictly
within the 100-unit proximity threshold. -/
theorem handleScrollFocus_minimizes (center : ℚ) (cells : List CellGeom) :
    (∀ i, handleScrollFocus center cells = some i ↔
      ∃ hi : i < cells.length,
        distTo center (cells.get ⟨i, hi⟩) < 100 ∧
        (∀ j (hj : j < cells.length),
          distTo center (cells.get ⟨i, hi⟩) ≤ distTo center (cells.get ⟨j, hj⟩)) ∧
        (∀ j (hj : j < cells.length), j < i →
          distTo center (cells.get ⟨i, hi⟩) < distTo center (cells.get ⟨j, hj⟩))) ∧
    (handleScrollFocus center cells = none ↔
      ∀ j (hj : j < cells.length), 100 ≤ distTo center (cells.get ⟨j, hj⟩)) := by
  have heq := handleScrollFocus_eq center cells
  cases hb : bestOf center 0 cells with
  | none =>
    have hnil : cells = [] := ((bestOf_spec center cells 0).1) hb
    subst hnil
    rw [hb] at heq
    simp only at heq
    constructor
    · intro i
      rw [heq]
      simp
    · rw [heq]
      simp
  | some p =>
    obtain ⟨k, d⟩ := p
    rw [hb] at heq
    simp only at heq
    obtain ⟨k0, hk0, hkk, hd, hmin, hstrict⟩ := ((bestOf_spec center cells 0).2) k d hb
    have hkk0 : k = k0 := by omega
    subst hkk0
    constructor
    · intro i
      rw [heq]
      constructor
      · intro hsome
        by_cases hth : d < 100
        · rw [if_pos hth] at hsome
          have hik : i = k := by
            simpa using hsome.symm
          subst hik
          exact ⟨hk0, by rw [← hd]; exact hth,
            fun j hj => by rw [← hd]; exact hmin j hj,
            fun j hj hji => by rw [← hd]; exact hstrict j hj hji⟩
        · rw [if_neg hth] at hsome
          exact absurd hsome (by simp)
      · rintro ⟨hi, hth, himin, histrict⟩
        have hik : i = k := by
          rcases Nat.lt_trichotomy i k with hlt | he | hgt
          · have h1 := hstrict i hi hlt
            have h2 := himin k hk0
            rw [← hd] at h2
            exact absurd (lt_of_lt_of_le h1 h2) (lt_irrefl _)
          · exact he
          · have h1 := histrict k hk0 hgt
            have h2 := hmin i hi
            rw [← hd] at h1
            exact absurd (lt_of_lt_of_le h1 h2) (lt_irrefl _)
        subst hik
        rw [if_pos (by rw [hd]; exact hth)]
    · rw [heq]
      constructor
      · intro hnone j hj
        by_cases hth : d < 100
        · rw [if_pos hth] at hnone
          exact absurd hnone (by simp)
        · have h100 : (100 : ℚ) ≤ d := le_of_not_lt hth
          exact le_trans h100 (hmin j hj)
      · intro hall
        have h100 : (100 : ℚ) ≤ d := by
          rw [hd]
          exact hall k hk0
        rw [if_neg (not_lt.mpr h100)]

/-! ## Speech feedback scheduler (App.tsx `speak` / `speakMixed`,
lines 35-58, and the dot cue inside `handleBrailleTouch`,
lines 226-231) -/

/-- One call into the platform speech engine: either
`window.speechSynthesis.cancel()` or `window.speechSynthesis.speak(u)`
with the text, language and rate of the utterance. -/
inductive SpeechEvent
  | cancel
  | utter (text : String) (lang : String) (rate : ℚ)
deriving DecidableEq

/-- `speak(text, lang, rate)` (App.tsx lines 35-43): nothing when
`window.speechSynthesis` is absent, otherwise cancel then speak one
utterance.  `engine` is the presence of `window.speechSynthesis`. -/
def speak (engine : Bool) (text : String) (lang : String) (rate : ℚ) : List SpeechEvent :=
  if engine then [SpeechEvent.cancel, SpeechEvent.utter text lang rate] else []

/-- `speakMixed(introText, contentText, contentLang)` (App.tsx lines
45-58): nothing when the engine is absent, otherwise cancel then queue
the intro utterance (es-ES, default rate 1) and the content utterance
(rate 0.9). -/
def speakMixed (engine : Bool) (introText contentText contentLang : String) :
    List SpeechEvent :=
  if engine then
    [SpeechEvent.cancel,
     SpeechEvent.utter introText "es-ES" 1,
     SpeechEvent.utter contentText contentLang (9 / 10)]
  else []

/-- Replay of a trace against the platform queue: `cancel` empties the
queue, `speak` appends.  The queue after a trace is what remains
audible. -/
def replaySpeech : List String → List SpeechEvent → List String
  | q, [] => q
  | _, SpeechEvent.cancel :: rest => replaySpeech [] rest
  | q, SpeechEvent.utter t _ _ :: rest => replaySpeech (q ++ [t]) rest

/-! ## Touch-dot interaction (App.tsx `handleBrailleTouch`,
lines 200-236) -/

/-- The two interaction refs of App.tsx: `lastReadCharIndexRef`
(`null` or the focused letter index) and `lastTouchedDotRef`.  The
latter holds the JS string `` `${lastReadCharIndexRef.current}-${dotIndexStr}` ``;
on its domain (a dot index `0`-`5` and either `null` or a decimal
letter index) that string is in bijection with the pair modelled here. -/
structure TouchRefs where
  lastReadCharIndex : Option Int
  lastTouchedDot : Option (Option Int × Nat)
deriving DecidableEq

/-- Result of `document.elementFromPoint` plus
`target.closest("[data-dot-index]")`: no element at all, an element
outside every dot region, or a dot with its index and `data-active`
flag. -/
inductive TouchTarget
  | noTarget
  | offDots
  | onDot (dotIndex : Nat) (isActive : Bool)
deriving DecidableEq

/-- Observable outcome of one `handleBrailleTouch` call: the updated
refs, the `navigator.vibrate` calls, the speech-engine calls, and
whether the call threw (it dereferences `window.speechSynthesis`
without a guard). -/
structure TouchOutcome where
  refs : TouchRefs
  vibrations : List Nat
  speech : List SpeechEvent
  threw : Bool
deriving DecidableEq

/-- `handleBrailleTouch` (App.tsx lines 200-236).  `engine` is the
presence of `window.speechSynthesis`, `hasVibrate` of
`navigator.vibrate`.  A missing target returns unchanged; a target off
every dot clears `lastTouchedDotRef`; a dot is processed only when the
dedup token `(lastReadCharIndex, dotIndex)` differs from the stored
one, and then vibrates (50ms active / 10ms inactive) and, when audio
feedback is enabled and the dot active, speaks the digit at rate 2.5
with no engine guard and no cancel — throwing if the engine is
absent. -/
def handleBrailleTouch (engine hasVibrate audioFeedbackEnabled : Bool)
    (target : TouchTarget) (refs : TouchRefs) : TouchOutcome :=
  match target with
  | TouchTarget.noTarget => ⟨refs, [], [], false⟩
  | TouchTarget.offDots => ⟨{ refs with lastTouchedDot := none }, [], [], false⟩
  | TouchTarget.onDot dotIndex isActive =>
      let uniqueDotId := (refs.lastReadCharIndex, dotIndex)
      if refs.lastTouchedDot = some uniqueDotId then
        ⟨refs, [], [], false⟩
      else
        let refs2 := { refs with lastTouchedDot := some uniqueDotId }
        let vibs := if hasVibrate then [if isActive then 50 else 10] else []
        if audioFeedbackEnabled && isActive then
          if engine then
            ⟨refs2, vibs, [SpeechEvent.utter (toString (dotIndex + 1)) "es-ES" (5 / 2)], false⟩
          else
            ⟨refs2, vibs, [], true⟩
        else
          ⟨refs2, vibs, [], false⟩

/-- C2 counterexample: the short dot cue of `handleBrailleTouch` speaks
its digit without any preceding cancel, so it is false that every one
of the three speech operations first cancels. -/
theorem dotCue_speaks_without_cancel :
    (handleBrailleTouch true true true (TouchTarget.onDot 0 true)
        ⟨none, none⟩).speech = [SpeechEvent.utter "1" "es-ES" (5 / 2)] ∧
    SpeechEvent.cancel ∉
      (handleBrailleTouch true true true (TouchTarget.onDot 0 true)
        ⟨none, none⟩).speech := by
  constructor
  · rfl
  · decide

/-- C2 (amended): `speak` and `speakMixed` each begin with a cancel, so
replaying `speakMixed` followed immediately by `speak` leaves exactly
the single utterance of `speak` audible, whatever was queued before;
the short dot cue, by contrast, never issues a cancel. -/
theorem speak_cancel_precedes (q : List String) (introText content clang t l : String)
    (r : ℚ) (hv : Bool) (d : Nat) (act : Bool) (refs : TouchRefs) :
    replaySpeech q (speakMixed true introText content clang ++ speak true t l r) = [t] ∧
    (speak true t l r).head? = some SpeechEvent.cancel ∧
    (speakMixed true introText content clang).head? = some SpeechEvent.cancel ∧
    SpeechEvent.cancel ∉
      (handleBrailleTouch true hv true (TouchTarget.onDot d act) refs).speech := by
  refine ⟨?_, rfl, rfl, ?_⟩
  · simp [speak, speakMixed, replaySpeech]
  · simp only [handleBrailleTouch]
    split_ifs <;> simp

/-- C3 counterexample: with no speech engine on the host, the dot cue
dereferences `window.speechSynthesis` without a guard and throws. -/
theorem dotCue_throws_without_engine :
    (handleBrailleTouch false true true (TouchTarget.onDot 0 true)
        ⟨some 0, none⟩).threw = true := by
  rfl

/-- C3 (amended): with no speech engine, `speak` and `speakMixed` are
no-ops, and the dot cue emits no utterance; but the dot cue throws
exactly when audio feedback is enabled, the dot is active and the dedup
token differs — only the non-dot paths never throw. -/
theorem speech_ops_without_engine (t l : String) (r : ℚ)
    (introText content clang : String) (hv audio : Bool) (d : Nat) (act : Bool)
    (refs : TouchRefs) :
    speak false t l r = [] ∧
    speakMixed false introText content clang = [] ∧
    (handleBrailleTouch false hv audio (TouchTarget.onDot d act) refs).speech = [] ∧
    ((handleBrailleTouch false hv audio (TouchTarget.onDot d act) refs).threw =
      (audio && act &&
        !(refs.lastTouchedDot == some (refs.lastReadCharIndex, d)))) ∧
    (handleBrailleTouch false hv audio TouchTarget.offDots refs).threw = false ∧
    (handleBrailleTouch false hv audio TouchTarget.noTarget refs).threw = false := by
  refine ⟨rfl, rfl, ?_, ?_, rfl, rfl⟩
  · simp only [handleBrailleTouch]
    split_ifs <;> simp_all
  · simp only [handleBrailleTouch]
    split_ifs <;> simp_all

/-- C4 counterexample: with `lastReadCharIndexRef` still `null` (no
focused letter), a touch on an active dot nevertheless vibrates and
speaks — dot hit-testing is not skipped. -/
theorem dotFeedback_without_focus :
    (handleBrailleTouch true true true (TouchTarget.onDot 0 true)
        ⟨none, none⟩).vibrations = [50] ∧
    (handleBrailleTouch true true true (TouchTarget.onDot 0 true)
        ⟨none, none⟩).speech ≠ [] := by
  constructor
  · rfl
  · decide

/-- C4 (amended): when no letter is focused, `handleBrailleTouch` still
processes a dot touch; the null focus index merely becomes part of the
dedup token, and haptic feedback is emitted whenever the token
differs. -/
theorem dotHitTest_ignores_focus (engine hv audio : Bool) (d : Nat) (act : Bool)
    (refs : TouchRefs) (hfocus : refs.lastReadCharIndex = none)
    (hdedup : refs.lastTouchedDot ≠ some (none, d)) :
    (handleBrailleTouch engine hv audio (TouchTarget.onDot d act) refs).vibrations =
      (if hv then [if act then 50 else 10] else []) ∧
    (handleBrailleTouch engine hv audio (TouchTarget.onDot d act)
        refs).refs.lastTouchedDot = some (none, d) := by
  simp only [handleBrailleTouch, hfocus]
  rw [if_neg (by simpa [hfocus] using hdedup)]
  constructor <;> split_ifs <;> rfl

theorem dotHitTest_ignores_focus_witness :
    (⟨none, none⟩ : TouchRefs).lastReadCharIndex = none ∧
    (handleBrailleTouch true true false (TouchTarget.onDot 2 false)
        ⟨none, none⟩).vibrations = [10] := by
  refine ⟨rfl, ?_⟩
  have h := dotHitTest_ignores_focus true true false 2 false ⟨none, none⟩ rfl (by decide)
  simpa using h.1

/-- C10: a touch landing outside every dot region clears the dedup
token, so a following touch on any dot passes the dedup check and
emits the feedback of that dot again. -/
theorem offDots_resets_token (engine hv audio : Bool) (refs : TouchRefs)
    (d : Nat) (act : Bool) :
    (handleBrailleTouch engine hv audio TouchTarget.offDots refs).refs.lastTouchedDot
      = none ∧
    (handleBrailleTouch engine hv audio (TouchTarget.onDot d act)
        (handleBrailleTouch engine hv audio TouchTarget.offDots refs).refs).vibrations
      = (if hv then [if act then 50 else 10] else []) ∧
    (handleBrailleTouch engine hv audio (TouchTarget.onDot d act)
        (handleBrailleTouch engine hv audio TouchTarget.offDots refs).refs).speech
      = (if engine && (audio && act) then
          [SpeechEvent.utter (toString (d + 1)) "es-ES" (5 / 2)] else []) ∧
    (handleBrailleTouch engine hv audio (TouchTarget.onDot d act)
        (handleBrailleTouch engine hv audio TouchTarget.offDots refs).refs).refs.lastTouchedDot
      = some (refs.lastReadCharIndex, d) := by
  refine ⟨rfl, ?_, ?_, ?_⟩ <;>
    · simp only [handleBrailleTouch]
      split_ifs <;> simp_all

/-! ## Word replacement (App.tsx `useEffect` on
`[currentWord, displayMode]`, lines 239-246) -/

/-- Observable outcome of the word-change effect: the reset refs, the
`scrollTo({left: 0})` request (issued only when the scroll container
exists), and the feedback it emits (none). -/
structure ResetOutcome where
  refs : TouchRefs
  scrolledToStart : Bool
  vibrations : List Nat
  speech : List SpeechEvent
deriving DecidableEq

/-- The `useEffect` body that runs on every word (or display-mode)
replacement: both refs are set to `null` and the container, when
present, is scrolled back to the start.  It does not look at the new
word and emits no feedback itself. -/
def wordChangeReset (hasContainer : Bool) (r : TouchRefs) : ResetOutcome :=
  let _ := r
  { refs := { lastReadCharIndex := none, lastTouchedDot := none }
    scrolledToStart := hasContainer
    vibrations := []
    speech := [] }

/-- C5 counterexample: replacing the word (new word "sol", non-empty)
from a state focused on letter 2 resets `activeLetterIndex` to `null`,
not to 0, and emits no letter-0 feedback. -/
theorem wordChangeReset_not_zero :
    (wordChangeReset true ⟨some 2, some (some 2, 3)⟩).refs.lastReadCharIndex ≠ some 0 ∧
    (wordChangeReset true ⟨some 2, some (some 2, 3)⟩).refs.lastReadCharIndex = none ∧
    (wordChangeReset true ⟨some 2, some (some 2, 3)⟩).speech = [] ∧
    (wordChangeReset true ⟨some 2, some (some 2, 3)⟩).vibrations = [] := by
  refine ⟨?_, rfl, rfl, rfl⟩
  decide

/-- C5 (amended): word replacement always resets the focus index to
"none" (`null`) — never to 0 or −1 — and clears the dedup token,
regardless of the prior state and of the new word; it only requests a
scroll back to the start, from which letter-0 focus and feedback can
arise later through the scroll handler. -/
theorem wordChangeReset_clears (hasContainer : Bool) (r : TouchRefs) :
    (wordChangeReset hasContainer r).refs.lastReadCharIndex = none ∧
    (wordChangeReset hasContainer r).refs.lastTouchedDot = none ∧
    (wordChangeReset hasContainer r).scrolledToStart = hasContainer ∧
    (wordChangeReset hasContainer r).vibrations = [] ∧
    (wordChangeReset hasContainer r).speech = [] := by
  exact ⟨rfl, rfl, rfl, rfl, rfl⟩

/-! ## Explicit next/previous navigation -/

/-- Modelled from the spec: no explicit next/previous navigation
operation exists anywhere under `src/` (the app only navigates by
scrolling), so §4.4 is modelled: "clamp the requested index to
[0, length(Word)−1]; if in range, move ...; navigation at the boundary
(prev at index 0, next at last index) is a no-op, not a wraparound."
The boolean reports whether the cursor moved (and hence whether the
viewport is re-centred and feedback will follow). -/
def navNext (wordLen : Nat) (i : Int) : Int × Bool :=
  let req := i + 1
  if 0 ≤ req ∧ req ≤ (wordLen : Int) - 1 then (req, true) else (i, false)

/-- Modelled from the spec: the previous-navigation half of §4.4; see
`navNext`. -/
def navPrev (wordLen : Nat) (i : Int) : Int × Bool :=
  let req := i - 1
  if 0 ≤ req ∧ req ≤ (wordLen : Int) - 1 then (req, true) else (i, false)

/-- C6: next/prev navigation never moves the focus index outside
[0, length−1]; next at the last index and prev at index 0 are no-ops
(no movement, hence no feedback), not wraparounds. -/
theorem nav_stays_in_range (wordLen : Nat) (i : Int)
    (hlo : 0 ≤ i) (hhi : i ≤ (wordLen : Int) - 1) :
    (0 ≤ (navNext wordLen i).1 ∧ (navNext wordLen i).1 ≤ (wordLen : Int) - 1) ∧
    (0 ≤ (navPrev wordLen i).1 ∧ (navPrev wordLen i).1 ≤ (wordLen : Int) - 1) ∧
    (i = (wordLen : Int) - 1 → navNext wordLen i = (i, false)) ∧
    (i = 0 → navPrev wordLen i = (i, false)) := by
  simp only [navNext, navPrev]
  refine ⟨?_, ?_, ?_, ?_⟩
  · split_ifs with h
    · exact ⟨h.1, h.2⟩
    · exact ⟨hlo, hhi⟩
  · split_ifs with h
    · exact ⟨h.1, h.2⟩
    · exact ⟨hlo, hhi⟩
  · intro hlast
    rw [if_neg (by omega)]
  · intro h0
    rw [if_neg (by omega)]

theorem nav_stays_in_range_witness :
    (0 : Int) ≤ 2 ∧ (2 : Int) ≤ (3 : Nat) - 1 ∧
    navNext 3 2 = (2, false) ∧ navPrev 3 2 = (1, true) := by
  have h := nav_stays_in_range 3 2 (by decide) (by decide)
  exact ⟨by decide, by decide, h.2.2.1 (by decide), by decide⟩

/-! ## Dot-pattern lookup (App.tsx `getBrailleData`, lines 24-33) -/

/-- JavaScript `toLowerCase()` restricted to the characters this app
can receive: ASCII letters plus the precomposed Spanish capitals. -/
def jsToLower (c : Char) : Char :=
  if 'A' ≤ c ∧ c ≤ 'Z' then Char.ofNat (c.toNat + 32)
  else if c = 'Á' then 'á'
  else if c = 'É' then 'é'
  else if c = 'Í' then 'í'
  else if c = 'Ó' then 'ó'
  else if c = 'Ú' then 'ú'
  else if c = 'Ü' then 'ü'
  else if c = 'Ñ' then 'ñ'
  else c

/-- JavaScript `normalize("NFD").replace(/[̀-ͯ]/g, "")` on a
single character, restricted to the precomposed Latin characters this
app can receive: NFD splits them into base letter plus combining marks
in U+0300–U+036F, which the regex deletes, leaving the base letter. -/
def stripDiacritics (c : Char) : Char :=
  if c = 'á' then 'a'
  else if c = 'é' then 'e'
  else if c = 'í' then 'i'
  else if c = 'ó' then 'o'
  else if c = 'ú' then 'u'
  else if c = 'ü' then 'u'
  else if c = 'ñ' then 'n'
  else if c = 'Á' then 'A'
  else if c = 'É' then 'E'
  else if c = 'Í' then 'I'
  else if c = 'Ó' then 'O'
  else if c = 'Ú' then 'U'
  else if c = 'Ü' then 'U'
  else if c = 'Ñ' then 'N'
  else c

/-- `getBrailleData` (App.tsx lines 24-33), parametric in the
`BRAILLE_MAP` table `M` (`src/constants.ts` is not part of the sources
here).  The source's `normalizedChar` conditional yields `char` in
*both* branches (`? char : char`), which is embedded verbatim. -/
def getBrailleData (M : Char → Option (List Bool)) (text : String) :
    List (Char × List Bool) :=
  (text.data.map jsToLower).map (fun char =>
    let normalizedChar :=
      if stripDiacritics char = 'n' ∧ char ≠ 'ñ' then char else char
    let dots := ((M (jsToLower char)).or (M normalizedChar)).getD
      [false, false, false, false, false, false]
    (char, dots))

/-- A dot table that knows the base letter `a` but not the accented
`á` — the configuration under which the claimed accent-stripped
fallback would have to fire. -/
def sampleDotMap (c : Char) : Option (List Bool) :=
  if c = 'a' then some [true, false, false, false, false, false] else none

/-- C8, evaluated at the failing input: for `á`, whose accent-stripped
form `a` has a table entry, `getBrailleData` returns the all-inactive
pattern instead of the pattern of `a`, because the fallback lookup uses
the raw character again. -/
theorem getBrailleData_no_accent_fallback :
    getBrailleData sampleDotMap "á" =
      [('á', [false, false, false, false, false, false])] ∧
    stripDiacritics 'á' = 'a' ∧
    sampleDotMap 'a' = some [true, false, false, false, false, false] := by
  refine ⟨?_, rfl, rfl⟩
  rfl

/-! ## Translation fallback (App.tsx `handleTranslate`,
lines 107-128) -/

inductive DisplayMode
  | spanish
  | english
deriving DecidableEq

/-- The pieces of App state `handleTranslate` touches. -/
structure TranslateState where
  translatedWord : String
  displayMode : DisplayMode
  error : Option String
  isTranslating : Bool
deriving DecidableEq

/-- `handleTranslate(word)` (App.tsx lines 107-128), with the awaited
`translateWord` collaborator result passed in: `Except.error` models
the promise rejecting, `Except.ok` its value.  The `finally` clause
clears `isTranslating` on every path. -/
def handleTranslate (engine : Bool) (word : String)
    (result : Except Unit String) (s : TranslateState) :
    TranslateState × List SpeechEvent :=
  match result with
  | Except.ok translation =>
      if translation = "UNAVAILABLE" then
        ({ s with translatedWord := word
                  displayMode := DisplayMode.spanish
                  isTranslating := false },
         speak engine "Traducción no disponible." "es-ES" 1)
      else
        ({ s with translatedWord := translation
                  isTranslating := false },
         speakMixed engine "En inglés:" translation "en-US")
  | Except.error _ =>
      ({ s with error := some "Error de conexión."
                translatedWord := word
                isTranslating := false },
       [])

/-- C7: when the translation collaborator fails outright or returns the
"UNAVAILABLE" sentinel, `handleTranslate` falls back to the original
word — the stored translated text equals the source word — the spinner
is cleared, and the reading-cursor engine works over the fallback text:
its braille rendering has exactly one cell per character, for any dot
table. -/
theorem handleTranslate_fallback (engine : Bool) (word : String)
    (result : Except Unit String) (s : TranslateState)
    (M : Char → Option (List Bool))
    (h : result = Except.ok "UNAVAILABLE" ∨ result = Except.error ()) :
    (handleTranslate engine word result s).1.translatedWord = word ∧
    (handleTranslate engine word result s).1.isTranslating = false ∧
    (getBrailleData M (handleTranslate engine word result s).1.translatedWord).length
      = word.length := by
  have hlen : ∀ t : String, (getBrailleData M t).length = t.length := by
    intro t
    unfold getBrailleData
    rw [List.length_map, List.length_map]
    rfl
  rcases h with h | h <;> subst h
  · exact ⟨by simp [handleTranslate], by simp [handleTranslate],
      by rw [hlen]; simp [handleTranslate]⟩
  · exact ⟨rfl, rfl, by rw [hlen]; rfl⟩

theorem handleTranslate_fallback_witness :
    (Except.ok "UNAVAILABLE" = (Except.ok "UNAVAILABLE" : Except Unit String) ∨
      (Except.ok "UNAVAILABLE" : Except Unit String) = Except.error ()) ∧
    (handleTranslate true "xyz" (Except.ok "UNAVAILABLE")
        ⟨"", DisplayMode.english, none, true⟩).1.translatedWord = "xyz" := by
  refine ⟨Or.inl rfl, ?_⟩
  have h := handleTranslate_fallback true "xyz" (Except.ok "UNAVAILABLE")
    ⟨"", DisplayMode.english, none, true⟩ (fun _ => none) (Or.inl rfl)
  exact h.1

/-! ## Lookup-key normalization (geminiService.ts `translateWord`,
lines 87-102, and `MOCK_DICTIONARY`, lines 9-85) -/

/-- The character class `[a-z0-9ñ]` of the final
`.replace(/[^a-z0-9ñ]/g, "")`. -/
def keepChar (c : Char) : Bool :=
  ('a' ≤ c && c ≤ 'z') || ('0' ≤ c && c ≤ '9') || c = 'ñ'

/-- `word.trim().toLowerCase().normalize("NFD").replace(/[̀-ͯ]/g,
"").replace(/[^a-z0-9ñ]/g, "")` — the `cleanWord` local of
`translateWord`. -/
def cleanWord (word : String) : String :=
  ⟨((word.trim.data.map jsToLower).map stripDiacritics).filter keepChar⟩

/-- JavaScript object property access `MOCK_DICTIONARY[key]`. -/
def dictLookup (key : String) : List (String × String) → Option String
  | [] => none
  | (k, v) :: rest => if key = k then some v else dictLookup key rest

/-- `MOCK_DICTIONARY` (geminiService.ts lines 9-85). -/
def MOCK_DICTIONARY : List (String × String) :=
  [("hola", "hello"), ("adios", "goodbye"), ("gracias", "thank you"),
   ("por favor", "please"), ("si", "yes"), ("no", "no"),
   ("computadora", "computer"), ("ordenador", "computer"),
   ("telefono", "phone"), ("celular", "cellphone"), ("mesa", "table"),
   ("silla", "chair"), ("libro", "book"), ("cuaderno", "notebook"),
   ("lapiz", "pencil"), ("boligrafo", "pen"), ("pluma", "pen"),
   ("mochila", "backpack"), ("escuela", "school"), ("casa", "house"),
   ("coche", "car"), ("auto", "car"), ("carro", "car"),
   ("autobus", "bus"), ("bicicleta", "bicycle"), ("reloj", "clock"),
   ("luz", "light"), ("ventana", "window"), ("puerta", "door"),
   ("sol", "sun"), ("luna", "moon"), ("estrella", "star"),
   ("agua", "water"), ("fuego", "fire"), ("tierra", "earth"),
   ("aire", "air"), ("arbol", "tree"), ("flor", "flower"),
   ("perro", "dog"), ("gato", "cat"), ("pajaro", "bird"),
   ("pez", "fish"), ("mar", "sea"), ("rio", "river"),
   ("comida", "food"), ("pan", "bread"), ("leche", "milk"),
   ("manzana", "apple"), ("naranja", "orange"), ("platano", "banana"),
   ("huevo", "egg"), ("queso", "cheese"), ("amigo", "friend"),
   ("familia", "family"), ("amor", "love"), ("tiempo", "time"),
   ("dia", "day"), ("noche", "night"), ("feliz", "happy"),
   ("triste", "sad"), ("braille", "braille"), ("musica", "music"),
   ("rojo", "red"), ("azul", "blue"), ("verde", "green"),
   ("amarillo", "yellow")]

/-- The dictionary branch of `translateWord` (`if
(MOCK_DICTIONARY[cleanWord]) return MOCK_DICTIONARY[cleanWord]`). -/
def translateWordDict (word : String) : Option String :=
  dictLookup (cleanWord word) MOCK_DICTIONARY

theorem dictLookup_space_value (key : String) (hk : ∀ c ∈ key.data, c ≠ ' ') :
    ∀ l : List (String × String),
      (∀ p ∈ l, p.2 = "please" → ' ' ∈ p.1.data) →
      dictLookup key l ≠ some "please" := by
  intro l
  induction l with
  | nil =>
    intro _ h
    exact absurd h (by simp [dictLookup])
  | cons p rest ih =>
    obtain ⟨a, b⟩ := p
    intro hl h
    rw [dictLookup] at h
    split_ifs at h with hka
    · simp only [Option.some.injEq] at h
      have hsp : ' ' ∈ a.data := hl (a, b) (List.mem_cons_self _ _) h
      rw [← hka] at hsp
      exact hk ' ' hsp rfl
    · exact ih (fun q hq => hl q (List.mem_cons_of_mem _ hq)) h

/-- C9: the lookup key built by `translateWord` never contains a space
(every character outside `[a-z0-9ñ]` is deleted), so the multi-word
dictionary entry "por favor" → "please" is unreachable from the
dictionary branch for every input. -/
theorem cleanWord_no_space (word : String) :
    (∀ c ∈ (cleanWord word).data, c ≠ ' ') ∧
    translateWordDict word ≠ some "please" := by
  have hnospace : ∀ c ∈ (cleanWord word).data, c ≠ ' ' := by
    intro c hc
    have hkeep : keepChar c = true := List.of_mem_filter hc
    intro hsp
    subst hsp
    exact absurd hkeep (by decide)
  refine ⟨hnospace, ?_⟩
  exact dictLookup_space_value (cleanWord word) hnospace MOCK_DICTIONARY (by decide)
